import Mathlib

/-!
# Verification of the derived `Codable` conformance synthesizer

A shallow embedding of `lib/Sema/DerivedConformanceCodable.cpp`: the data
model (nominal types, stored properties, enum cases and their payload
parameters, `CodingKeys` declarations), the validation functions
(`validateCodingKeysEnum` and friends, `canSynthesize`), and the four body
synthesizers (`deriveBodyEncodable_encode`, `deriveBodyEncodable_enum_encode`,
`deriveBodyDecodable_init`, `deriveBodyDecodable_enum_init`).

The synthesized Swift AST fragments are modelled by the inductive types
`Expr`, `Pat` and `Stmt` below; external compiler services (name lookup,
conformance checking, accessibility) are modelled as boolean attributes of
the input data, mirroring exactly the queries the C++ code makes.
-/

set_option autoImplicit false

namespace DerivedCodable

/-- Synthesized expressions, one constructor per AST node kind the C++
builders create.  Argument lists carry the argument labels used by
`CallExpr::createImplicit` (the empty string models `Identifier()`). -/
inductive Expr where
  | declRef (name : String)
  | dot (base : Expr) (member : String)
  | typeRef (name : String)
  | dotSelf (base : Expr)
  | call (fn : Expr) (args : List (String × Expr))
  | tryE (sub : Expr)
  | stringLit (value : String)
  | intLit (value : Nat)
  | nilLit
  | eqCmp (lhs rhs : Expr)
  | assign (dest src : Expr)
  | superRef
  | assertFail

/-- Patterns of the synthesized `switch` statements. -/
inductive Pat where
  | enumElem (tyName caseName : String) (hasPayload : Bool)
  | someOf (sub : Pat)

/-- Synthesized statements.  `bind` models a `PatternBindingDecl`,
`declStmt` the `VarDecl` pushed right after it, `guardStmt` a `GuardStmt`
whose body runs when the condition is false. -/
inductive Stmt where
  | bind (name : String) (value : Expr)
  | declStmt (name : String)
  | expr (e : Expr)
  | guardStmt (cond : Expr) (body : List Stmt)
  | throwStmt (e : Expr)
  | switchStmt (scrutinee : Expr) (arms : List (Pat × List Stmt))

/-- The two derivable protocols. -/
inductive Proto where
  | encodable
  | decodable
deriving DecidableEq

/-- Diagnostics, one constructor per `diag::` id the file emits. -/
inductive Diag where
  | extraneousCodingKeyCase (key : String)
  | nonConformingProperty (propName : String)
  | nonDecodedProperty (key : String)
  | codingKeysNotConforming
  | codingKeysNotAnEnum
  | noSuperInitHere
  | superInitNotDesignatedHere
  | superInitInaccessibleHere
  | superInitFailableHere
  | duplicateCaseName (caseName : String)
  | duplicateParamName (paramName : String)
  | typeDoesNotConform
deriving DecidableEq

/-- A candidate superclass initializer, as seen by `canSynthesize`:
the looked-up `ConstructorDecl` with the four attributes consulted. -/
structure InitM where
  isDesignated : Bool
  isAccessible : Bool
  isFailable : Bool
  hasThrows : Bool
deriving DecidableEq

/-- A superclass of a class target: its conformances and the results of
looking up `init(from:)` and `init()` on it. -/
structure SuperclassM where
  conformsEncodable : Bool
  conformsDecodable : Bool
  initFromCandidates : List InitM
  initNoArgCandidates : List InitM
deriving DecidableEq

/-- A stored property (`VarDecl`) of a struct or class target.
`originalWrappedName` models `getOriginalWrappedProperty()`;
`pbdDefaultInitable` models `getParentPatternBinding()` existing and
`isDefaultInitializable()`; `isParentInited` models
`isParentInitialized()`. -/
structure VarDeclM where
  name : String
  originalWrappedName : Option String
  isUserAccessible : Bool
  isStatic : Bool
  typeName : String
  isOptional : Bool
  isLet : Bool
  isParentInited : Bool
  pbdDefaultInitable : Bool
  conformsEncodable : Bool
  conformsDecodable : Bool
deriving DecidableEq

/-- A payload parameter (`ParamDecl`) of an enum case.  `name = ""`
models an empty `Identifier` (unnamed payload slot); `defaultExpr` models
`hasDefaultExpr`/`getTypeCheckedDefaultExpr`. -/
structure ParamM where
  name : String
  originalWrappedName : Option String
  isUserAccessible : Bool
  typeName : String
  isOptional : Bool
  defaultExpr : Option Expr
  conformsEncodable : Bool
  conformsDecodable : Bool

/-- One case (`EnumElementDecl`) of an enum target. -/
structure UnionCaseM where
  name : String
  params : List ParamM

/-- A user-declared `CodingKeys`-like declaration: its element names in
declaration order, and the two attributes `validateCodingKeysType`
checks (conformance to `CodingKey`, being an enum). -/
structure CodingKeysDeclM where
  keys : List String
  conformsToCodingKey : Bool
  isEnumDecl : Bool
deriving DecidableEq

/-- A nominal type requesting derivation.  `userKeys = none` models an
empty `lookupDirect(CodingKeys)` (the enum will be synthesized);
`userCaseKeys` is keyed by the `caseCodingKeysIdentifier` of each case. -/
inductive TargetM where
  | structTarget (props : List VarDeclM) (userKeys : Option CodingKeysDeclM)
  | classTarget (props : List VarDeclM) (userKeys : Option CodingKeysDeclM)
      (sclass : Option SuperclassM)
  | enumTarget (name : String) (cases : List UnionCaseM)
      (userKeys : Option CodingKeysDeclM)
      (userCaseKeys : List (String × CodingKeysDeclM))

/-- `getVarNameForCoding` on a `VarDecl`: the original wrapped property
name when there is one, otherwise the declared name. -/
def getVarNameForCoding (v : VarDeclM) : String :=
  v.originalWrappedName.getD v.name

/-- `getVarNameForCoding` on a `ParamDecl`. -/
def getVarNameForCodingP (p : ParamM) : String :=
  p.originalWrappedName.getD p.name

/-- `camel_case::appendSentenceCase`-built identifier of a per-case
`CodingKeys` enum: sentence-cased case name followed by `CodingKeys`. -/
def caseCodingKeysIdentifier (caseName : String) : String :=
  caseName.capitalize ++ "CodingKeys"

/-- The identifier used for a payload parameter: its coding name, or
`_<index>` (via `std::to_string`) when the name is empty. -/
def paramCodingId (i : Nat) (p : ParamM) : String :=
  let n := getVarNameForCodingP p
  if n = "" then "_" ++ toString i else n

/-- Lookup in an order-preserving association list
(`llvm::SmallMapVector` keyed by `Identifier`). -/
def alLookup {α : Type} : List (String × α) → String → Option α
  | [], _ => none
  | e :: rest, k => if e.1 = k then some e.2 else alLookup rest k

/-- `SmallMapVector::operator[]=`: overwrite in place if the key is
present, append otherwise. -/
def alInsert {α : Type} : List (String × α) → String → α → List (String × α)
  | [], k, v => [(k, v)]
  | e :: rest, k, v =>
    if e.1 = k then (k, v) :: rest else e :: alInsert rest k v

/-- `SmallMapVector::erase` of a key. -/
def alErase {α : Type} : List (String × α) → String → List (String × α)
  | [], _ => []
  | e :: rest, k => if e.1 = k then rest else e :: alErase rest k

/-- The slice of a `VarDecl`/`ParamDecl` consulted by the shared map
validation `validateCodingKeysEnum(derived, varDecls, typeDecl)`. -/
structure CodingProp where
  declName : String
  isParamDecl : Bool
  pbdDefaultInitable : Bool
  isParentInited : Bool
  hasDefaultValue : Bool
  conformsEncodable : Bool
  conformsDecodable : Bool
deriving DecidableEq

/-- View of a stored property for the map validation. -/
def varToCodingProp (v : VarDeclM) : CodingProp :=
  { declName := v.name
    isParamDecl := false
    pbdDefaultInitable := v.pbdDefaultInitable
    isParentInited := v.isParentInited
    hasDefaultValue := false
    conformsEncodable := v.conformsEncodable
    conformsDecodable := v.conformsDecodable }

/-- View of a payload parameter for the map validation.  A `ParamDecl`
has no parent pattern binding and is never parent-initialized. -/
def paramToCodingProp (p : ParamM) : CodingProp :=
  { declName := p.name
    isParamDecl := true
    pbdDefaultInitable := false
    isParentInited := false
    hasDefaultValue := p.defaultExpr.isSome
    conformsEncodable := p.conformsEncodable
    conformsDecodable := p.conformsDecodable }

/-- `TypeChecker::conformsToProtocol(memberType, derived.Protocol, dc)`. -/
def propConforms : Proto → CodingProp → Bool
  | .encodable, p => p.conformsEncodable
  | .decodable, p => p.conformsDecodable

/-- The three `continue`s of the unmatched-member loop of
`validateCodingKeysEnum`: a member decoding may skip. -/
def defaultableEntry (p : CodingProp) : Bool :=
  p.pbdDefaultInitable || p.isParentInited || (p.isParamDecl && p.hasDefaultValue)

/-- The `name -> property` map built from the stored properties
(`properties[getVarNameForCoding(varDecl)] = varDecl`, skipping
non-user-accessible ones). -/
def propsMapAux (acc : List (String × CodingProp)) :
    List VarDeclM → List (String × CodingProp)
  | [] => acc
  | v :: vs =>
    propsMapAux
      (if v.isUserAccessible then
        alInsert acc (getVarNameForCoding v) (varToCodingProp v)
      else acc) vs

def propsMap (props : List VarDeclM) : List (String × CodingProp) :=
  propsMapAux [] props

/-- The `name -> parameter` map built from a case's payload parameters
(`validateCaseCodingKeysEnum`): non-user-accessible parameters are
skipped, unnamed ones get the generated `_<index>` identifier. -/
def paramsMapAux (acc : List (String × CodingProp)) (i : Nat) :
    List ParamM → List (String × CodingProp)
  | [] => acc
  | p :: ps =>
    paramsMapAux
      (if p.isUserAccessible then
        alInsert acc (paramCodingId i p) (paramToCodingProp p)
      else acc) (i + 1) ps

def paramsMap (params : List ParamM) : List (String × CodingProp) :=
  paramsMapAux [] 0 params

/-! ## Implicit `CodingKeys` synthesis (`addImplicitCodingKeys`) -/

/-- The member-key loop of `addImplicitCodingKeys`: one case per
user-accessible stored property, in declaration order, named by
`getVarNameForCoding`. -/
def implicitKeysForProps : List VarDeclM → List String
  | [] => []
  | v :: vs =>
    if v.isUserAccessible then getVarNameForCoding v :: implicitKeysForProps vs
    else implicitKeysForProps vs

/-- `superclassConformsTo(dyn_cast<ClassDecl>(target), Encodable) ||
superclassConformsTo(..., Decodable)`; `none` models a struct target or a
class without a superclass (both make `superclassConformsTo` false). -/
def superKeyNeeded : Option SuperclassM → Bool
  | none => false
  | some s => s.conformsEncodable || s.conformsDecodable

/-- `addImplicitCodingKeys` for a struct/class target: the element names,
in order, of the synthesized `CodingKeys` enum. -/
def addImplicitCodingKeys (sclass : Option SuperclassM)
    (props : List VarDeclM) : List String :=
  (if superKeyNeeded sclass then ["super"] else []) ++ implicitKeysForProps props

/-- `addImplicitCodingKeys_enum`: one key per enum case, by case name. -/
def addImplicitCodingKeys_enum (cases : List UnionCaseM) : List String :=
  cases.map (fun c => c.name)

/-- The payload-key loop of `addImplicitCaseCodingKeys`, carrying the
`llvm::enumerate` index: every parameter gets a key (no accessibility
filter here), unnamed ones the generated `_<index>` name. -/
def implicitCaseKeysAux (i : Nat) : List ParamM → List String
  | [] => []
  | p :: ps => paramCodingId i p :: implicitCaseKeysAux (i + 1) ps

/-- `addImplicitCaseCodingKeys`: derived only when the case itself has a
key in the (evaluated) top-level `CodingKeys` enum, otherwise `none`
(the C++ function returns `nullptr`). -/
def addImplicitCaseCodingKeys (topKeys : List String) (elt : UnionCaseM) :
    Option (List String) :=
  if topKeys.contains elt.name then some (implicitCaseKeysAux 0 elt.params)
  else none

/-! ## Validation (`validateCodingKeysType`, `validateCodingKeysEnum`) -/

/-- `validateCodingKeysType`: the declaration must conform to
`CodingKey` and be an enum; on failure the corresponding diagnostic is
emitted and validation fails. -/
def validateCodingKeysType (d : CodingKeysDeclM) :
    Option (List String) × List Diag :=
  if !d.conformsToCodingKey then (none, [Diag.codingKeysNotConforming])
  else if !d.isEnumDecl then (none, [Diag.codingKeysNotAnEnum])
  else (some d.keys, [])

/-- The key loop of the map form of `validateCodingKeysEnum`: for each
key, an unmatched key is an extraneous-case diagnostic, a matched member
failing the conformance check is a non-conforming diagnostic (the member
stays in the map), and a matched conforming member is erased.  Returns
(valid, diagnostics, remaining map). -/
def validateKeysLoop (conf : CodingProp → Bool)
    (m : List (String × CodingProp)) :
    List String → Bool × List Diag × List (String × CodingProp)
  | [] => (true, [], m)
  | k :: ks =>
    match alLookup m k with
    | none =>
      let r := validateKeysLoop conf m ks
      (false, Diag.extraneousCodingKeyCase k :: r.2.1, r.2.2)
    | some p =>
      if conf p then
        let r := validateKeysLoop conf (alErase m k) ks
        (r.1, r.2.1, r.2.2)
      else
        let r := validateKeysLoop conf m ks
        (false, Diag.nonConformingProperty p.declName :: r.2.1, r.2.2)

/-- The trailing `Decodable`-only loop of the map validation: every
member left unmatched must be defaultable, otherwise a
"would never be decoded" diagnostic is emitted and validation fails. -/
def checkRemainingDecodable :
    List (String × CodingProp) → Bool × List Diag
  | [] => (true, [])
  | e :: rest =>
    let r := checkRemainingDecodable rest
    if defaultableEntry e.2 then r
    else (false, Diag.nonDecodedProperty e.1 :: r.2)

/-- The map form of `validateCodingKeysEnum` (lines 311-387): run the
key loop; if it failed, fail; for `Decodable`, additionally require every
remaining member to be defaultable. -/
def validateCodingKeysEnumMap (proto : Proto)
    (m : List (String × CodingProp)) (keys : List String) :
    Bool × List Diag :=
  let r := validateKeysLoop (propConforms proto) m keys
  if !r.1 then (false, r.2.1)
  else
    match proto with
    | .decodable =>
      let s := checkRemainingDecodable r.2.2
      (s.1, r.2.1 ++ s.2)
    | .encodable => (true, r.2.1)

/-- `validateCodingKeysEnum_enum`: each element of the `CodingKeys` enum
must name a case of the target enum; extraneous elements are diagnosed
(all of them) and fail validation. -/
def validateCodingKeysEnum_enum (cases : List UnionCaseM) :
    List String → Bool × List Diag
  | [] => (true, [])
  | k :: ks =>
    let r := validateCodingKeysEnum_enum cases ks
    if (cases.map (fun c => c.name)).contains k then r
    else (false, Diag.extraneousCodingKeyCase k :: r.2)

/-- The evaluated key set of a struct/class target: the user-declared
`CodingKeys` if present, else the implicitly synthesized one. -/
def evalStructKeys (sclass : Option SuperclassM) (props : List VarDeclM) :
    Option CodingKeysDeclM → List String
  | some d => d.keys
  | none => addImplicitCodingKeys sclass props

/-- The evaluated key set of an enum target. -/
def evaluatedTopKeysEnum (cases : List UnionCaseM) :
    Option CodingKeysDeclM → List String
  | some d => d.keys
  | none => addImplicitCodingKeys_enum cases

/-- The entry form of `validateCodingKeysEnum(derived)` for a
struct/class target: look up (or synthesize) `CodingKeys`, check its
shape, and run the map validation against the property map. -/
def validateCodingKeysEnumTop (proto : Proto) (props : List VarDeclM)
    (sclass : Option SuperclassM) (userKeys : Option CodingKeysDeclM) :
    Bool × List Diag :=
  match userKeys with
  | none =>
    validateCodingKeysEnumMap proto (propsMap props)
      (addImplicitCodingKeys sclass props)
  | some d =>
    match validateCodingKeysType d with
    | (none, ds) => (false, ds)
    | (some keys, _) => validateCodingKeysEnumMap proto (propsMap props) keys

/-- The entry form of `validateCodingKeysEnum(derived)` for an enum
target. -/
def validateCodingKeysEnumTop_enum (cases : List UnionCaseM)
    (userKeys : Option CodingKeysDeclM) : Bool × List Diag :=
  match userKeys with
  | none =>
    validateCodingKeysEnum_enum cases (addImplicitCodingKeys_enum cases)
  | some d =>
    match validateCodingKeysType d with
    | (none, ds) => (false, ds)
    | (some keys, _) => validateCodingKeysEnum_enum cases keys

/-- `validateCaseCodingKeysEnum`: look up the user-declared per-case
`CodingKeys` (keyed by `caseCodingKeysIdentifier`) or derive one, then
run the map validation against the payload-parameter map.  When the case
has no top-level key and no user declaration, `addImplicitCaseCodingKeys`
returns `nullptr` and the subsequent cast fails: modelled as a plain
failure. -/
def validateCaseCodingKeysEnum (proto : Proto) (topKeys : List String)
    (elt : UnionCaseM) (userCase : Option CodingKeysDeclM) :
    Bool × List Diag :=
  match userCase with
  | none =>
    match addImplicitCaseCodingKeys topKeys elt with
    | none => (false, [])
    | some keys => validateCodingKeysEnumMap proto (paramsMap elt.params) keys
  | some d =>
    match validateCodingKeysType d with
    | (none, ds) => (false, ds)
    | (some keys, _) =>
      validateCodingKeysEnumMap proto (paramsMap elt.params) keys

/-! ## `canSynthesize` -/

/-- The candidate list `canSynthesize` looks up on the superclass:
`init(from:)` when the superclass is itself `Decodable`, `init()`
otherwise. -/
def superCands (s : SuperclassM) : List InitM :=
  if s.conformsDecodable then s.initFromCandidates else s.initNoArgCandidates

/-- The superclass-initializer gate of `canSynthesize` (lines
1896-1951).  Exactly one reachable failure per condition: no candidate,
ambiguous candidates (bails with no diagnostic of its own), candidate
not designated, inaccessible, or failable. -/
def superclassGate (s : SuperclassM) : Bool × List Diag :=
  match superCands s with
  | [] => (false, [Diag.noSuperInitHere])
  | [ini] =>
    if !ini.isDesignated then (false, [Diag.superInitNotDesignatedHere])
    else if !ini.isAccessible then (false, [Diag.superInitInaccessibleHere])
    else if ini.isFailable then (false, [Diag.superInitFailableHere])
    else (true, [])
  | _ :: _ :: _ => (false, [])

/-- The duplicate-payload-name loop of `canSynthesize` for one enum
case (`params.insert` keeps the first entry; a failed insert is a
duplicate-parameter diagnostic). -/
def paramDupAux (seen : List String) (i : Nat) :
    List ParamM → Bool × List Diag
  | [] => (true, [])
  | p :: ps =>
    let id := paramCodingId i p
    let dup := seen.contains id
    let r := paramDupAux (if dup then seen else seen ++ [id]) (i + 1) ps
    (!dup && r.1, (if dup then [Diag.duplicateParamName id] else []) ++ r.2)

def paramDupCheck (elt : UnionCaseM) : Bool × List Diag :=
  paramDupAux [] 0 elt.params

/-- The per-case loop of `canSynthesize` for enums: duplicate case
names, duplicate payload names, and (for non-duplicate cases) the
per-case `CodingKeys` validation. -/
def enumCasesLoop (proto : Proto) (topKeys : List String)
    (userCaseKeys : List (String × CodingKeysDeclM)) (seen : List String) :
    List UnionCaseM → Bool × List Diag
  | [] => (true, [])
  | elt :: rest =>
    let dup := seen.contains elt.name
    let d1 : List Diag :=
      if dup then [Diag.duplicateCaseName elt.name] else []
    let pd := paramDupCheck elt
    let cv :=
      if dup then (true, ([] : List Diag))
      else
        validateCaseCodingKeysEnum proto topKeys elt
          (alLookup userCaseKeys (caseCodingKeysIdentifier elt.name))
    let r :=
      enumCasesLoop proto topKeys userCaseKeys
        (if dup then seen else seen ++ [elt.name]) rest
    (!dup && pd.1 && cv.1 && r.1, d1 ++ pd.2 ++ cv.2 ++ r.2)

/-- `canSynthesize` (lines 1883-2009): the superclass gate (Decodable
classes with a superclass only), then `validateCodingKeysEnum`, then for
enums the duplicate checks and per-case validations. -/
def canSynthesize (proto : Proto) : TargetM → Bool × List Diag
  | .structTarget props uk => validateCodingKeysEnumTop proto props none uk
  | .classTarget props uk sc =>
    match proto, sc with
    | .decodable, some s =>
      let g := superclassGate s
      if !g.1 then (false, g.2)
      else validateCodingKeysEnumTop proto props sc uk
    | _, _ => validateCodingKeysEnumTop proto props sc uk
  | .enumTarget _ cases uk uck =>
    let r := validateCodingKeysEnumTop_enum cases uk
    if !r.1 then (false, r.2)
    else
      let l := enumCasesLoop proto (evaluatedTopKeysEnum cases uk) uck [] cases
      (l.1, r.2 ++ l.2)

/-! ## Expression builders -/

/-- `createContainerKeyedByCall`:
`base.container(keyedBy: CodingKeys.self)`. -/
def containerKeyedByCall (base : Expr) : Expr :=
  Expr.call (Expr.dot base "container")
    [("keyedBy", Expr.dotSelf (Expr.typeRef "CodingKeys"))]

/-- `createNestedContainerKeyedByForKeyCall`:
`base.nestedContainer(keyedBy: <CaseKeys>.self, forKey: CodingKeys.<case>)`. -/
def nestedContainerCall (base : Expr) (caseKeysName caseName : String) : Expr :=
  Expr.call (Expr.dot base "nestedContainer")
    [("keyedBy", Expr.dotSelf (Expr.typeRef caseKeysName)),
     ("forKey", Expr.dot (Expr.typeRef "CodingKeys") caseName)]

/-- The `Context.init(codingPath:debugDescription:underlyingError:)`
call shared by both throw builders. -/
def contextInitExpr (contextTypeName : String)
    (containerExpr debugMessage : Expr) : Expr :=
  Expr.call (Expr.dot (Expr.typeRef contextTypeName) "init")
    [("codingPath", Expr.dot containerExpr "codingPath"),
     ("debugDescription", debugMessage),
     ("underlyingError", Expr.nilLit)]

/-- `createThrowDecodingErrorTypeMismatchStmt`'s thrown value:
`DecodingError.typeMismatch(<Target>.self, Context(...))`. -/
def decodingErrorTypeMismatchExpr (targetName : String)
    (containerExpr debugMessage : Expr) : Expr :=
  Expr.call (Expr.dot (Expr.typeRef "DecodingError") "typeMismatch")
    [("", Expr.dotSelf (Expr.typeRef targetName)),
     ("", contextInitExpr "DecodingError.Context" containerExpr debugMessage)]

/-- `createThrowEncodingErrorInvalidValueStmt`'s thrown value:
`EncodingError.invalidValue(<value>, Context(...))`. -/
def encodingErrorInvalidValueExpr (valueExpr containerExpr debugMessage : Expr) :
    Expr :=
  Expr.call (Expr.dot (Expr.typeRef "EncodingError") "invalidValue")
    [("", valueExpr),
     ("", contextInitExpr "EncodingError.Context" containerExpr debugMessage)]

/-- The debug message built (byte for byte) by
`deriveBodyEncodable_enum_encode` for a case with no `CodingKeys`
entry. -/
def caseNotEncodableMessage (caseName : String) : String :=
  "Case '" ++ caseName ++
    "' cannot be decoded because it is not defined in CodingKeys."

/-! ## Body synthesis: struct/class -/

/-- The rendered declared type of a property (the element type of the
optional when the property is optional). -/
def declaredTypeNameP (p : ParamM) : String :=
  if p.isOptional then "Optional<" ++ p.typeName ++ ">" else p.typeName

/-- `lookupVarDeclForCodingKeysCase`: the first non-static property
whose (coding) name matches the key, together with the
`useIfPresentVariant` flag — true exactly when the declared type is
optional.  `none` models the `llvm_unreachable` fall-through. -/
def lookupVarDeclForCodingKeysCase (props : List VarDeclM) (k : String) :
    Option (VarDeclM × Bool) :=
  match props.find? (fun v => getVarNameForCoding v == k && !v.isStatic) with
  | none => none
  | some v => some (v, v.isOptional)

/-- One iteration of the per-key loop of `deriveBodyEncodable_encode`:
`try container.encode(self.<x>, forKey: CodingKeys.<key>)`, with
`encodeIfPresent` for optional properties. -/
def encodeStmtForKey (props : List VarDeclM) (k : String) : Stmt :=
  match lookupVarDeclForCodingKeysCase props k with
  | none => Stmt.expr Expr.assertFail
  | some (v, ifP) =>
    Stmt.expr (Expr.tryE
      (Expr.call
        (Expr.dot (Expr.declRef "container")
          (if ifP then "encodeIfPresent" else "encode"))
        [("", Expr.dot (Expr.declRef "self") v.name),
         ("forKey", Expr.dot (Expr.typeRef "CodingKeys") k)]))

/-- The trailing `try super.encode(to: container.superEncoder())` of
`deriveBodyEncodable_encode`. -/
def superEncodeStmt : Stmt :=
  Stmt.expr (Expr.tryE
    (Expr.call (Expr.dot Expr.superRef "encode")
      [("to", Expr.call (Expr.dot (Expr.declRef "container") "superEncoder") [])]))

/-- `deriveBodyEncodable_encode`: unconditional container binding, one
encode call per key, and superclass delegation when the superclass is
`Encodable`. -/
def deriveBodyEncodable_encode (props : List VarDeclM) (keys : List String)
    (superEnc : Bool) : List Stmt :=
  [Stmt.bind "container" (containerKeyedByCall (Expr.declRef "encoder")),
   Stmt.declStmt "container"]
  ++ keys.map (encodeStmtForKey props)
  ++ (if superEnc then [superEncodeStmt] else [])

/-- One iteration of the per-key loop of `deriveBodyDecodable_init`: a
`let` property that already has an initial value is skipped entirely
(only warnings are emitted), every other key becomes
`self.<x> = try container.decode(<T>.self, forKey: CodingKeys.<key>)`,
with `decodeIfPresent` for optional properties. -/
def decodeStmtsForKey (props : List VarDeclM) (k : String) : List Stmt :=
  match lookupVarDeclForCodingKeysCase props k with
  | none => [Stmt.expr Expr.assertFail]
  | some (v, ifP) =>
    if v.isLet && v.isParentInited then []
    else
      [Stmt.expr (Expr.assign
        (Expr.dot (Expr.declRef "self") v.name)
        (Expr.tryE
          (Expr.call
            (Expr.dot (Expr.declRef "container")
              (if ifP then "decodeIfPresent" else "decode"))
            [("", Expr.dotSelf (Expr.typeRef v.typeName)),
             ("forKey", Expr.dot (Expr.typeRef "CodingKeys") k)])))]

/-- The superclass tail of `deriveBodyDecodable_init`:
`try super.init(from: container.superDecoder())` when the superclass is
`Decodable`, otherwise a (possibly `try`) plain `super.init()` call. -/
def superDecodeStmts : Option SuperclassM → List Stmt
  | none => []
  | some s =>
    if s.conformsDecodable then
      [Stmt.expr (Expr.tryE
        (Expr.call (Expr.dot Expr.superRef "init")
          [("from",
            Expr.call (Expr.dot (Expr.declRef "container") "superDecoder") [])]))]
    else
      match s.initNoArgCandidates with
      | [] => [Stmt.expr Expr.assertFail]
      | ini :: _ =>
        let c := Expr.call (Expr.dot Expr.superRef "init") []
        [Stmt.expr (if ini.hasThrows then Expr.tryE c else c)]

/-- `deriveBodyDecodable_init`: the container is bound only when the key
enumeration has at least one element; then the per-key decode
statements, then the superclass call. -/
def deriveBodyDecodable_init (props : List VarDeclM) (keys : List String)
    (sclass : Option SuperclassM) : List Stmt :=
  (if keys.isEmpty then []
   else
    [Stmt.bind "container" (Expr.tryE (containerKeyedByCall (Expr.declRef "decoder"))),
     Stmt.declStmt "container"]
    ++ keys.flatMap (decodeStmtsForKey props))
  ++ superDecodeStmts sclass

/-! ## Body synthesis: enums -/

/-- One payload slot of the per-case loop of
`deriveBodyEncodable_enum_encode`: skipped when the slot has no key in
the per-case `CodingKeys`, otherwise
`try nestedContainer.encode(a<i>, forKey: <CaseKeys>.<id>)`, with
`encodeIfPresent` for an optional slot. -/
def encodePayloadStmt (caseKeysName : String) (caseKeys : List String)
    (i : Nat) (p : ParamM) : List Stmt :=
  let id := paramCodingId i p
  if !caseKeys.contains id then []
  else
    [Stmt.expr (Expr.tryE
      (Expr.call
        (Expr.dot (Expr.declRef "nestedContainer")
          (if p.isOptional then "encodeIfPresent" else "encode"))
        [("", Expr.declRef ("a" ++ toString i)),
         ("forKey", Expr.dot (Expr.typeRef caseKeysName) id)]))]

def encodePayloadStmtsAux (caseKeysName : String) (caseKeys : List String)
    (i : Nat) : List ParamM → List Stmt
  | [] => []
  | p :: ps =>
    encodePayloadStmt caseKeysName caseKeys i p
    ++ encodePayloadStmtsAux caseKeysName caseKeys (i + 1) ps

/-- The body of one `switch` arm of `deriveBodyEncodable_enum_encode`:
a single `EncodingError.invalidValue` throw when the case has no
top-level key, otherwise the nested container binding followed by one
encode per keyed payload slot. -/
def encodeCaseBody (topKeys : List String)
    (caseKeysEnv : List (String × List String)) (elt : UnionCaseM) :
    List Stmt :=
  if !topKeys.contains elt.name then
    [Stmt.throwStmt
      (encodingErrorInvalidValueExpr (Expr.declRef "self")
        (Expr.declRef "container")
        (Expr.stringLit (caseNotEncodableMessage elt.name)))]
  else
    let cid := caseCodingKeysIdentifier elt.name
    match alLookup caseKeysEnv cid with
    | none => [Stmt.expr Expr.assertFail]
    | some caseKeys =>
      [Stmt.bind "nestedContainer"
        (nestedContainerCall (Expr.declRef "container") cid elt.name),
       Stmt.declStmt "nestedContainer"]
      ++ encodePayloadStmtsAux cid caseKeys 0 elt.params

/-- One `switch` arm of `deriveBodyEncodable_enum_encode`. -/
def encodeArm (enumName : String) (topKeys : List String)
    (caseKeysEnv : List (String × List String)) (elt : UnionCaseM) :
    Pat × List Stmt :=
  (Pat.enumElem enumName elt.name (!elt.params.isEmpty),
   encodeCaseBody topKeys caseKeysEnv elt)

/-- `deriveBodyEncodable_enum_encode`: unconditional container binding,
then a `switch self` with one arm per enum case. -/
def deriveBodyEncodable_enum_encode (enumName : String)
    (cases : List UnionCaseM) (topKeys : List String)
    (caseKeysEnv : List (String × List String)) : List Stmt :=
  [Stmt.bind "container" (containerKeyedByCall (Expr.declRef "encoder")),
   Stmt.declStmt "container",
   Stmt.switchStmt (Expr.declRef "self")
     (cases.map (encodeArm enumName topKeys caseKeysEnv))]

/-- The `assert(paramDecl->hasDefaultExpr())` of
`deriveBodyDecodable_enum_init` fires for this slot: the slot has no key
in the per-case `CodingKeys` and no default expression. -/
def decodeArgAsserts (caseKeys : List String) (i : Nat) (p : ParamM) : Bool :=
  !caseKeys.contains (paramCodingId i p) && p.defaultExpr.isNone

/-- The argument built for one payload slot of a decoded enum case:
`try nestedContainer.decode(<T>.self, forKey: <CaseKeys>.<id>)` when the
slot has a key (always the plain `decode`, never `decodeIfPresent`),
otherwise the slot's type-checked default expression
(`Expr.assertFail` marks the asserting path when there is none). -/
def decodeArgForParam (caseKeysName : String) (caseKeys : List String)
    (i : Nat) (p : ParamM) : Expr :=
  let id := paramCodingId i p
  if caseKeys.contains id then
    Expr.tryE
      (Expr.call (Expr.dot (Expr.declRef "nestedContainer") "decode")
        [("", Expr.dotSelf (Expr.typeRef (declaredTypeNameP p))),
         ("forKey", Expr.dot (Expr.typeRef caseKeysName) id)])
  else
    match p.defaultExpr with
    | some e => e
    | none => Expr.assertFail

def decodeArgsAux (caseKeysName : String) (caseKeys : List String)
    (i : Nat) : List ParamM → List Expr
  | [] => []
  | p :: ps =>
    decodeArgForParam caseKeysName caseKeys i p
    :: decodeArgsAux caseKeysName caseKeys (i + 1) ps

/-- The `self = Foo.<case>(...)` right-hand side of a decoded enum
case: a bare member reference when the case has no payload, else the
constructor call whose labels are the raw (possibly empty) payload
names. -/
def decodeSelfValue (enumName : String) (caseKeys : List String)
    (elt : UnionCaseM) : Expr :=
  let cid := caseCodingKeysIdentifier elt.name
  let labels := elt.params.map getVarNameForCodingP
  if labels.isEmpty then Expr.dot (Expr.typeRef enumName) elt.name
  else
    Expr.call (Expr.dot (Expr.typeRef enumName) elt.name)
      (labels.zip (decodeArgsAux cid caseKeys 0 elt.params))

/-- The body of one `switch` arm of `deriveBodyDecodable_enum_init`:
nested container binding, then the `self = ...` assignment. -/
def decodeCaseBody (enumName : String)
    (caseKeysEnv : List (String × List String)) (elt : UnionCaseM) :
    List Stmt :=
  let cid := caseCodingKeysIdentifier elt.name
  match alLookup caseKeysEnv cid with
  | none => [Stmt.expr Expr.assertFail]
  | some caseKeys =>
    [Stmt.bind "nestedContainer"
      (Expr.tryE (nestedContainerCall (Expr.declRef "container") cid elt.name)),
     Stmt.declStmt "nestedContainer",
     Stmt.expr (Expr.assign (Expr.declRef "self")
       (decodeSelfValue enumName caseKeys elt))]

/-- The `switch` arms of `deriveBodyDecodable_enum_init`: one arm per
enum case that has a top-level key (cases without a key are skipped
entirely), labelled `.some(CodingKeys.<case>)`. -/
def decodeArms (enumName : String) (caseKeysEnv : List (String × List String))
    (topKeys : List String) : List UnionCaseM → List (Pat × List Stmt)
  | [] => []
  | elt :: rest =>
    let tail := decodeArms enumName caseKeysEnv topKeys rest
    if topKeys.contains elt.name then
      (Pat.someOf (Pat.enumElem "CodingKeys" elt.name false),
        decodeCaseBody enumName caseKeysEnv elt) :: tail
    else tail

/-- `deriveBodyDecodable_enum_init`: empty body when the key enumeration
has no cases; otherwise the container binding, the exactly-one-key
guard, and the dispatch over `container.allKeys.first`. -/
def deriveBodyDecodable_enum_init (enumName : String)
    (cases : List UnionCaseM) (topKeys : List String)
    (caseKeysEnv : List (String × List String)) : List Stmt :=
  if topKeys.isEmpty then []
  else
    [Stmt.bind "container"
      (Expr.tryE (containerKeyedByCall (Expr.declRef "decoder"))),
     Stmt.declStmt "container",
     Stmt.guardStmt
       (Expr.eqCmp
         (Expr.dot (Expr.dot (Expr.declRef "container") "allKeys") "count")
         (Expr.intLit 1))
       [Stmt.throwStmt
         (decodingErrorTypeMismatchExpr enumName (Expr.declRef "container")
           (Expr.stringLit "Invalid number of keys found, expected one."))],
     Stmt.switchStmt
       (Expr.dot (Expr.dot (Expr.declRef "container") "allKeys") "first")
       (decodeArms enumName caseKeysEnv topKeys cases)]

/-! ## Derivation entry points -/

/-- The evaluated per-case `CodingKeys` environment after a successful
`canSynthesize`: the user-declared per-case enums plus the implicitly
synthesized ones. -/
def evaluatedCaseKeysEnv (topKeys : List String)
    (userCaseKeys : List (String × CodingKeysDeclM)) :
    List UnionCaseM → List (String × List String)
  | [] => []
  | elt :: rest =>
    let tailE := evaluatedCaseKeysEnv topKeys userCaseKeys rest
    let cid := caseCodingKeysIdentifier elt.name
    match alLookup userCaseKeys cid with
    | some d => (cid, d.keys) :: tailE
    | none =>
      match addImplicitCaseCodingKeys topKeys elt with
      | some ks => (cid, ks) :: tailE
      | none => tailE

/-- The `encode(to:)` body `deriveEncodable` attaches on success. -/
def encodeBodyFor : TargetM → List Stmt
  | .structTarget props uk =>
    deriveBodyEncodable_encode props (evalStructKeys none props uk) false
  | .classTarget props uk sc =>
    deriveBodyEncodable_encode props (evalStructKeys sc props uk)
      (match sc with
        | some s => s.conformsEncodable
        | none => false)
  | .enumTarget n cases uk uck =>
    let tk := evaluatedTopKeysEnum cases uk
    deriveBodyEncodable_enum_encode n cases tk (evaluatedCaseKeysEnv tk uck cases)

/-- `DerivedConformance::deriveEncodable`: when `canSynthesize` fails, a
does-not-conform diagnostic is emitted and no body is produced. -/
def deriveEncodable (t : TargetM) : Option (List Stmt) × List Diag :=
  let r := canSynthesize .encodable t
  if !r.1 then (none, r.2 ++ [Diag.typeDoesNotConform])
  else (some (encodeBodyFor t), r.2)

/-! ## Analysis helpers (extractors over synthesized bodies) -/

/-- Is this statement the top-level container binding? -/
def isContainerBind : Stmt → Bool
  | .bind "container" _ => true
  | _ => false

def isExtraneousDiag : Diag → Bool
  | .extraneousCodingKeyCase _ => true
  | _ => false

/-- The `debugDescription` argument of an error-context call. -/
def contextDebugMessage : Expr → Option String
  | .call _ args =>
    match args.find? (fun a => a.1 == "debugDescription") with
    | some (_, .stringLit s) => some s
    | _ => none
  | _ => none

/-- The debug message of a thrown `DecodingError`/`EncodingError`. -/
def throwDebugMessage : Stmt → Option String
  | .throwStmt (.call _ [_, (_, ctx)]) => contextDebugMessage ctx
  | _ => none

/-- The debug message of the throw inside the first `guard` of a
body. -/
def guardThrowMessage (stmts : List Stmt) : Option String :=
  match stmts.find? (fun s =>
      match s with
      | .guardStmt _ _ => true
      | _ => false) with
  | some (.guardStmt _ [t]) => throwDebugMessage t
  | _ => none

/-- The arms of the first `switch` of a body. -/
def firstSwitchArms (stmts : List Stmt) : Option (List (Pat × List Stmt)) :=
  match stmts.find? (fun s =>
      match s with
      | .switchStmt _ _ => true
      | _ => false) with
  | some (.switchStmt _ arms) => some arms
  | _ => none

/-- The container method called by the right-hand side of the third
statement (the `self = ...` assignment) of a decoded enum-case arm
body, for its first constructor argument. -/
def armFirstDecodeMethod : List Stmt → Option String
  | [_, _, .expr (.assign _ (.call _ ((_, .tryE (.call (.dot _ m) _)) :: _)))] =>
    some m
  | _ => none

/-- The debug message of a switch arm whose body is a single throw. -/
def armThrowMessage (arm : Pat × List Stmt) : Option String :=
  match arm.2 with
  | [t] => throwDebugMessage t
  | _ => none

/-- The evaluated per-case key list `deriveBodyDecodable_enum_init`
works against for one case: the user-declared per-case enum when there
is one, otherwise the implicitly synthesized one. -/
def evaluatedCaseKeys (topKeys : List String) (elt : UnionCaseM) :
    Option CodingKeysDeclM → Option (List String)
  | some d => some d.keys
  | none => addImplicitCaseCodingKeys topKeys elt

/-! ## Sample declarations used to evaluate the model at concrete inputs -/

/-- A required (non-optional) conforming stored property `x: Int`. -/
def samplePropX : VarDeclM :=
  { name := "x", originalWrappedName := none, isUserAccessible := true,
    isStatic := false, typeName := "Int", isOptional := false, isLet := false,
    isParentInited := false, pbdDefaultInitable := false,
    conformsEncodable := true, conformsDecodable := true }

/-- An optional conforming stored property `y: String?`. -/
def samplePropOptY : VarDeclM :=
  { name := "y", originalWrappedName := none, isUserAccessible := true,
    isStatic := false, typeName := "String", isOptional := true, isLet := false,
    isParentInited := false, pbdDefaultInitable := false,
    conformsEncodable := true, conformsDecodable := true }

/-- An immutable stored property `let z = ...` with an initial value. -/
def samplePropLetZ : VarDeclM :=
  { name := "z", originalWrappedName := none, isUserAccessible := true,
    isStatic := false, typeName := "Int", isOptional := false, isLet := true,
    isParentInited := true, pbdDefaultInitable := true,
    conformsEncodable := true, conformsDecodable := true }

/-- An optional payload parameter `x: Int?` with no default. -/
def sampleOptionalParam : ParamM :=
  { name := "x", originalWrappedName := none, isUserAccessible := true,
    typeName := "Int", isOptional := true, defaultExpr := none,
    conformsEncodable := true, conformsDecodable := true }

/-- A non-user-accessible payload parameter with no default. -/
def sampleHiddenParam : ParamM :=
  { name := "x", originalWrappedName := none, isUserAccessible := false,
    typeName := "Int", isOptional := false, defaultExpr := none,
    conformsEncodable := true, conformsDecodable := true }

/-- A payload parameter `x: Int = 0` with a default expression. -/
def sampleDefaultedParam : ParamM :=
  { name := "x", originalWrappedName := none, isUserAccessible := true,
    typeName := "Int", isOptional := false,
    defaultExpr := some (Expr.intLit 0),
    conformsEncodable := true, conformsDecodable := true }

/-- A user-declared `CodingKeys`-shaped enum with no cases. -/
def emptyCodingKeysDecl : CodingKeysDeclM :=
  { keys := [], conformsToCodingKey := true, isEnumDecl := true }

/-- A `Decodable` superclass on which `init(from:)` lookup finds no
candidate. -/
def sampleSuperNoInit : SuperclassM :=
  { conformsEncodable := false, conformsDecodable := true,
    initFromCandidates := [],
    initNoArgCandidates :=
      [{ isDesignated := true, isAccessible := true, isFailable := false,
         hasThrows := false }] }

/-- A designated, accessible, non-failable, non-throwing initializer. -/
def sampleInit : InitM :=
  { isDesignated := true, isAccessible := true, isFailable := false,
    hasThrows := false }

/-! ## Supporting lemmas -/

theorem implicitKeysForProps_eq (props : List VarDeclM) :
    implicitKeysForProps props
      = (props.filter (fun v => v.isUserAccessible)).map getVarNameForCoding := by
  induction props with
  | nil => rfl
  | cons v vs ih =>
    by_cases h : v.isUserAccessible <;>
      simp [implicitKeysForProps, h, ih]

theorem decodeArms_eq (enumName : String)
    (caseKeysEnv : List (String × List String)) (topKeys : List String)
    (cases : List UnionCaseM) :
    decodeArms enumName caseKeysEnv topKeys cases
      = (cases.filter (fun e => topKeys.contains e.name)).map
          (fun e =>
            (Pat.someOf (Pat.enumElem "CodingKeys" e.name false),
              decodeCaseBody enumName caseKeysEnv e)) := by
  induction cases with
  | nil => rfl
  | cons elt rest ih =>
    simp only [decodeArms, List.filter_cons]
    by_cases h : elt.name ∈ topKeys <;>
      simp [h, ih]

theorem checkRemainingDecodable_spec (l : List (String × CodingProp)) :
    checkRemainingDecodable l
      = (l.all (fun e => defaultableEntry e.2),
         (l.filter (fun e => !defaultableEntry e.2)).map
           (fun e => Diag.nonDecodedProperty e.1)) := by
  induction l with
  | nil => rfl
  | cons e rest ih =>
    by_cases h : defaultableEntry e.2 <;>
      simp [checkRemainingDecodable, h, ih]

theorem alLookup_mem {α : Type} (m : List (String × α)) (k : String) (v : α)
    (h : alLookup m k = some v) : (k, v) ∈ m := by
  induction m with
  | nil => simp [alLookup] at h
  | cons e rest ih =>
    cases e with
    | mk a b =>
      by_cases he : a = k
      · subst he
        simp [alLookup] at h
        subst h
        exact List.mem_cons_self _ _
      · simp [alLookup, he] at h
        exact List.mem_cons_of_mem _ (ih h)

theorem alLookup_alInsert_self {α : Type} (m : List (String × α))
    (k : String) (v : α) : alLookup (alInsert m k v) k = some v := by
  induction m with
  | nil => simp [alInsert, alLookup]
  | cons e rest ih =>
    cases e with
    | mk a b =>
      by_cases he : a = k <;> simp [alInsert, he, alLookup, ih]

theorem alLookup_alInsert_ne {α : Type} (m : List (String × α))
    (k k' : String) (v : α) (h : k' ≠ k) :
    alLookup (alInsert m k v) k' = alLookup m k' := by
  have hk : k ≠ k' := Ne.symm h
  induction m with
  | nil => simp [alInsert, alLookup, hk]
  | cons e rest ih =>
    cases e with
    | mk a b =>
      by_cases he : a = k
      · subst he
        simp [alInsert, alLookup, hk]
      · by_cases he' : a = k' <;> simp [alInsert, he, alLookup, he', ih, h]

theorem alLookup_alErase_ne {α : Type} (m : List (String × α))
    (k k' : String) (h : k' ≠ k) :
    alLookup (alErase m k) k' = alLookup m k' := by
  induction m with
  | nil => rfl
  | cons e rest ih =>
    cases e with
    | mk a b =>
      by_cases he : a = k
      · subst he
        simp [alErase, alLookup, Ne.symm h]
      · by_cases he' : a = k' <;> simp [alErase, he, alLookup, he', ih, h]

theorem validateKeysLoop_rest_lookup (conf : CodingProp → Bool) :
    ∀ (ks : List String) (m : List (String × CodingProp)) (k : String),
    k ∉ ks →
    alLookup (validateKeysLoop conf m ks).2.2 k = alLookup m k := by
  intro ks
  induction ks with
  | nil => intro m k _; rfl
  | cons k0 ks ih =>
    intro m k hk
    have hne : k ≠ k0 := fun h => hk (h ▸ List.mem_cons_self _ _)
    have hks : k ∉ ks := fun h => hk (List.mem_cons_of_mem _ h)
    simp only [validateKeysLoop]
    cases hl : alLookup m k0 with
    | none => simpa using ih m k hks
    | some p =>
      by_cases hc : conf p
      · simp only [hc, if_true]
        rw [ih (alErase m k0) k hks, alLookup_alErase_ne _ _ _ hne]
      · simp only [hc, if_false]
        simpa using ih m k hks

theorem validateKeysLoop_false_of_diags (conf : CodingProp → Bool) :
    ∀ (ks : List String) (m : List (String × CodingProp)),
    (validateKeysLoop conf m ks).2.1 ≠ [] →
    (validateKeysLoop conf m ks).1 = false := by
  intro ks
  induction ks with
  | nil => intro m h; exact absurd rfl h
  | cons k0 ks ih =>
    intro m h
    simp only [validateKeysLoop] at h ⊢
    cases hl : alLookup m k0 with
    | none => simp
    | some p =>
      by_cases hc : conf p
      · simp only [hl, hc, if_true] at h ⊢
        exact ih (alErase m k0) h
      · simp [hl, hc]

theorem validateKeysLoop_extraneous (conf : CodingProp → Bool) :
    ∀ (ks : List String) (m : List (String × CodingProp)), ks.Nodup →
    (validateKeysLoop conf m ks).2.1.filter isExtraneousDiag
      = (ks.filter (fun k => (alLookup m k).isNone)).map
          Diag.extraneousCodingKeyCase := by
  intro ks
  induction ks with
  | nil => intro m _; rfl
  | cons k0 ks ih =>
    intro m hnd
    have hk0 : k0 ∉ ks := (List.nodup_cons.mp hnd).1
    have hnd' : ks.Nodup := (List.nodup_cons.mp hnd).2
    simp only [validateKeysLoop, List.filter_cons]
    cases hl : alLookup m k0 with
    | none =>
      simp [isExtraneousDiag, hl, ih m hnd']
    | some p =>
      by_cases hc : conf p
      · simp only [hc, if_true, hl, Option.isNone_some, Bool.false_eq_true,
          if_false]
        rw [ih (alErase m k0) hnd']
        congr 1
        apply List.filter_congr
        intro k hk
        have : k ≠ k0 := fun h => hk0 (h ▸ hk)
        rw [alLookup_alErase_ne _ _ _ this]
      · simp [isExtraneousDiag, hl, hc, ih m hnd']

theorem checkRemainingDecodable_all
    (l : List (String × CodingProp))
    (h : (checkRemainingDecodable l).1 = true) :
    ∀ k p, alLookup l k = some p → defaultableEntry p = true := by
  intro k p hk
  rw [checkRemainingDecodable_spec] at h
  simp only [List.all_eq_true] at h
  exact h _ (alLookup_mem l k p hk)

theorem validateCodingKeysEnumMap_enc_snd
    (m : List (String × CodingProp)) (ks : List String) :
    (validateCodingKeysEnumMap .encodable m ks).2
      = (validateKeysLoop (propConforms .encodable) m ks).2.1 := by
  unfold validateCodingKeysEnumMap
  by_cases h : (validateKeysLoop (propConforms .encodable) m ks).1 <;>
    simp [h]

theorem validateCodingKeysEnumMap_dec_true
    (m : List (String × CodingProp)) (ks : List String)
    (h : (validateCodingKeysEnumMap .decodable m ks).1 = true) :
    (validateKeysLoop (propConforms .decodable) m ks).1 = true ∧
      ∀ k p,
        alLookup (validateKeysLoop (propConforms .decodable) m ks).2.2 k
          = some p → defaultableEntry p = true := by
  unfold validateCodingKeysEnumMap at h
  by_cases hr : (validateKeysLoop (propConforms .decodable) m ks).1
  · refine ⟨hr, ?_⟩
    simp only [hr, Bool.not_true, Bool.false_eq_true, if_false] at h
    exact checkRemainingDecodable_all _ h
  · simp [hr] at h

theorem paramsMapAux_lookup_notin :
    ∀ (ps : List ParamM) (acc : List (String × CodingProp)) (i : Nat)
      (k : String), k ∉ implicitCaseKeysAux i ps →
    alLookup (paramsMapAux acc i ps) k = alLookup acc k := by
  intro ps
  induction ps with
  | nil => intro acc i k _; rfl
  | cons p ps ih =>
    intro acc i k hk
    have hne : k ≠ paramCodingId i p := fun h =>
      hk (h ▸ List.mem_cons_self _ _)
    have hks : k ∉ implicitCaseKeysAux (i + 1) ps := fun h =>
      hk (List.mem_cons_of_mem _ h)
    simp only [paramsMapAux]
    by_cases ha : p.isUserAccessible
    · simp only [ha, if_true]
      rw [ih _ _ _ hks, alLookup_alInsert_ne _ _ _ _ hne]
    · simp only [ha, if_false]
      exact ih _ _ _ hks

theorem paramsMapAux_lookup :
    ∀ (ps : List ParamM) (acc : List (String × CodingProp)) (i j : Nat)
      (p : ParamM), ps[j]? = some p → p.isUserAccessible = true →
      (implicitCaseKeysAux i ps).Nodup →
    alLookup (paramsMapAux acc i ps) (paramCodingId (i + j) p)
      = some (paramToCodingProp p) := by
  intro ps
  induction ps with
  | nil => intro acc i j p hp; simp at hp
  | cons q qs ih =>
    intro acc i j p hp ha hnd
    cases j with
    | zero =>
      simp only [List.getElem?_cons_zero, Option.some_inj] at hp
      subst hp
      have hid : paramCodingId i q ∉ implicitCaseKeysAux (i + 1) qs :=
        (List.nodup_cons.mp hnd).1
      simp only [paramsMapAux, ha, if_true, Nat.add_zero]
      rw [paramsMapAux_lookup_notin _ _ _ _ hid, alLookup_alInsert_self]
    | succ j =>
      simp only [List.getElem?_cons_succ] at hp
      have harith : i + (j + 1) = (i + 1) + j := by omega
      rw [harith]
      simp only [paramsMapAux]
      exact ih _ (i + 1) j p hp ha (List.nodup_cons.mp hnd).2

theorem implicitCaseKeysAux_mem :
    ∀ (ps : List ParamM) (i j : Nat) (p : ParamM), ps[j]? = some p →
    paramCodingId (i + j) p ∈ implicitCaseKeysAux i ps := by
  intro ps
  induction ps with
  | nil => intro i j p hp; simp at hp
  | cons q qs ih =>
    intro i j p hp
    cases j with
    | zero =>
      simp only [List.getElem?_cons_zero, Option.some_inj] at hp
      subst hp
      simp [implicitCaseKeysAux]
    | succ j =>
      simp only [List.getElem?_cons_succ] at hp
      have harith : i + (j + 1) = (i + 1) + j := by omega
      rw [harith]
      exact List.mem_cons_of_mem _ (ih (i + 1) j p hp)

/-! ## Claim theorems -/

/-- C5: a synthesized `CodingKeys` enum for a struct/class target has
one key per user-accessible stored member, in declaration order, named
by the member's coding name; and when the target is a class whose
superclass conforms to `Encodable` or `Decodable`, a reserved `super`
key is the first entry, preceding all member keys.  (`sclass = none`
models a struct, or a class without a superclass.) -/
theorem c5_implicit_coding_keys (sclass : Option SuperclassM)
    (props : List VarDeclM) :
    addImplicitCodingKeys sclass props
      = (if superKeyNeeded sclass then ["super"] else [])
        ++ (props.filter (fun v => v.isUserAccessible)).map getVarNameForCoding
    ∧ (superKeyNeeded sclass = true →
        addImplicitCodingKeys sclass props
          = "super" :: (props.filter (fun v => v.isUserAccessible)).map
              getVarNameForCoding
        ∧ (addImplicitCodingKeys sclass props).head? = some "super") := by
  constructor
  · rw [addImplicitCodingKeys, implicitKeysForProps_eq]
  · intro h
    constructor
    · rw [addImplicitCodingKeys, implicitKeysForProps_eq, h]
      rfl
    · rw [addImplicitCodingKeys, h]
      rfl

/-- C5 witness: a class with an `Encodable` superclass and properties
`x` (accessible) and a hidden one gets `super` first, then `x`. -/
theorem c5_witness :
    superKeyNeeded (some
      { conformsEncodable := true, conformsDecodable := false,
        initFromCandidates := [], initNoArgCandidates := [sampleInit] }) = true
    ∧ (addImplicitCodingKeys (some
        { conformsEncodable := true, conformsDecodable := false,
          initFromCandidates := [], initNoArgCandidates := [sampleInit] })
        [samplePropX]
        = "super" :: (([samplePropX].filter (fun v => v.isUserAccessible)).map
            getVarNameForCoding)
      ∧ (addImplicitCodingKeys (some
          { conformsEncodable := true, conformsDecodable := false,
            initFromCandidates := [], initNoArgCandidates := [sampleInit] })
          [samplePropX]).head? = some "super") :=
  ⟨rfl,
   (c5_implicit_coding_keys (some
      { conformsEncodable := true, conformsDecodable := false,
        initFromCandidates := [], initNoArgCandidates := [sampleInit] })
      [samplePropX]).2 rfl⟩

/-- C6: in the synthesized encode body of an enum, a case with no entry
in the top-level `CodingKeys` gets a dispatch arm whose body is exactly
one thrown `EncodingError.invalidValue` carrying a descriptive message
and `self`; no nested container and no encode calls are emitted for
it. -/
theorem c6_unencodable_case_throws (enumName : String)
    (cases : List UnionCaseM) (topKeys : List String)
    (caseKeysEnv : List (String × List String)) (elt : UnionCaseM)
    (h : topKeys.contains elt.name = false) :
    deriveBodyEncodable_enum_encode enumName cases topKeys caseKeysEnv
      = [Stmt.bind "container" (containerKeyedByCall (Expr.declRef "encoder")),
         Stmt.declStmt "container",
         Stmt.switchStmt (Expr.declRef "self")
           (cases.map (encodeArm enumName topKeys caseKeysEnv))]
    ∧ encodeArm enumName topKeys caseKeysEnv elt
      = (Pat.enumElem enumName elt.name (!elt.params.isEmpty),
         [Stmt.throwStmt
           (encodingErrorInvalidValueExpr (Expr.declRef "self")
             (Expr.declRef "container")
             (Expr.stringLit (caseNotEncodableMessage elt.name)))]) := by
  refine ⟨rfl, ?_⟩
  have hmem : elt.name ∉ topKeys := by simpa using h
  simp [encodeArm, encodeCaseBody, hmem]

/-- C6 witness: an enum `case bar(x:)` absent from a `["baz"]` key set
gets the single-throw arm. -/
theorem c6_witness :
    (["baz"] : List String).contains "bar" = false
    ∧ (deriveBodyEncodable_enum_encode "Foo"
        [{ name := "bar", params := [sampleOptionalParam] }] ["baz"] []
        = [Stmt.bind "container" (containerKeyedByCall (Expr.declRef "encoder")),
           Stmt.declStmt "container",
           Stmt.switchStmt (Expr.declRef "self")
             ([{ name := "bar", params := [sampleOptionalParam] }].map
               (encodeArm "Foo" ["baz"] []))]
      ∧ encodeArm "Foo" ["baz"] [] { name := "bar", params := [sampleOptionalParam] }
        = (Pat.enumElem "Foo" "bar"
            (!([sampleOptionalParam] : List ParamM).isEmpty),
           [Stmt.throwStmt
             (encodingErrorInvalidValueExpr (Expr.declRef "self")
               (Expr.declRef "container")
               (Expr.stringLit (caseNotEncodableMessage "bar")))])) :=
  ⟨rfl,
   c6_unencodable_case_throws "Foo"
     [{ name := "bar", params := [sampleOptionalParam] }] ["baz"] []
     { name := "bar", params := [sampleOptionalParam] } rfl⟩

/-- C10: the debug message of the runtime encoding error generated for
an enum case absent from the top-level key enumeration is exactly
`Case '<name>' cannot be decoded because it is not defined in
CodingKeys.` — the encode-path message indeed says "decoded". -/
theorem c10_encode_error_message_says_decoded (enumName : String)
    (cases : List UnionCaseM) (topKeys : List String)
    (caseKeysEnv : List (String × List String)) (elt : UnionCaseM)
    (h : topKeys.contains elt.name = false) :
    armThrowMessage (encodeArm enumName topKeys caseKeysEnv elt)
      = some ("Case '" ++ elt.name
          ++ "' cannot be decoded because it is not defined in CodingKeys.")
    ∧ firstSwitchArms
        (deriveBodyEncodable_enum_encode enumName cases topKeys caseKeysEnv)
      = some (cases.map (encodeArm enumName topKeys caseKeysEnv)) := by
  constructor
  · have hmem : elt.name ∉ topKeys := by simpa using h
    simp [encodeArm, encodeCaseBody, hmem, armThrowMessage, throwDebugMessage,
      encodingErrorInvalidValueExpr, contextInitExpr, contextDebugMessage,
      caseNotEncodableMessage]
  · rfl

/-- C10 witness: the message for case `bar`. -/
theorem c10_witness :
    (["baz"] : List String).contains "bar" = false
    ∧ (armThrowMessage (encodeArm "E" ["baz"] [] { name := "bar", params := [] })
        = some "Case 'bar' cannot be decoded because it is not defined in CodingKeys."
      ∧ firstSwitchArms
          (deriveBodyEncodable_enum_encode "E"
            [{ name := "bar", params := [] }] ["baz"] [])
        = some ([{ name := "bar", params := [] }].map (encodeArm "E" ["baz"] []))) :=
  ⟨rfl,
   c10_encode_error_message_says_decoded "E" [{ name := "bar", params := [] }]
     ["baz"] [] { name := "bar", params := [] } rfl⟩

/-- C8: in the synthesized struct/class decode initializer, no decoding
container is acquired when the key enumeration is empty; otherwise the
container binding comes first; an immutable (`let`) member that already
has an initial value produces no decode statement and no assignment;
every other resolved member produces a decode/decodeIfPresent call
assigned into the member. -/
theorem c8_decode_body_shape (props : List VarDeclM) (keys : List String)
    (sclass : Option SuperclassM) :
    (keys.isEmpty = true →
      deriveBodyDecodable_init props keys sclass = superDecodeStmts sclass
      ∧ (deriveBodyDecodable_init props keys sclass).all
          (fun s => !isContainerBind s) = true)
  ∧ (keys.isEmpty = false →
      deriveBodyDecodable_init props keys sclass
        = [Stmt.bind "container"
             (Expr.tryE (containerKeyedByCall (Expr.declRef "decoder"))),
           Stmt.declStmt "container"]
          ++ keys.flatMap (decodeStmtsForKey props)
          ++ superDecodeStmts sclass)
  ∧ (∀ k v ifP, lookupVarDeclForCodingKeysCase props k = some (v, ifP) →
      (v.isLet && v.isParentInited) = true → decodeStmtsForKey props k = [])
  ∧ (∀ k v ifP, lookupVarDeclForCodingKeysCase props k = some (v, ifP) →
      (v.isLet && v.isParentInited) = false →
      decodeStmtsForKey props k
        = [Stmt.expr (Expr.assign
            (Expr.dot (Expr.declRef "self") v.name)
            (Expr.tryE
              (Expr.call
                (Expr.dot (Expr.declRef "container")
                  (if v.isOptional then "decodeIfPresent" else "decode"))
                [("", Expr.dotSelf (Expr.typeRef v.typeName)),
                 ("forKey", Expr.dot (Expr.typeRef "CodingKeys") k)])))]) := by
  refine ⟨?_, ?_, ?_, ?_⟩
  · intro h
    constructor
    · simp [deriveBodyDecodable_init, h]
    · simp only [deriveBodyDecodable_init, h, if_true]
      cases sclass with
      | none => rfl
      | some s =>
        by_cases hc : s.conformsDecodable
        · simp [superDecodeStmts, hc, isContainerBind]
        · cases hin : s.initNoArgCandidates with
          | nil => simp [superDecodeStmts, hc, hin, isContainerBind]
          | cons ini rest =>
            by_cases ht : ini.hasThrows <;>
              simp [superDecodeStmts, hc, hin, ht, isContainerBind]
  · intro h
    simp [deriveBodyDecodable_init, h]
  · intro k v ifP hl hskip
    simp [decodeStmtsForKey, hl, hskip]
  · intro k v ifP hl hskip
    have hopt : ifP = v.isOptional := by
      rw [lookupVarDeclForCodingKeysCase] at hl
      cases hf : List.find? (fun w => getVarNameForCoding w == k && !w.isStatic)
          props with
      | none => rw [hf] at hl; exact absurd hl (by simp)
      | some w =>
        rw [hf] at hl
        simp only [Option.some_inj, Prod.mk.injEq] at hl
        rw [← hl.1, hl.2]
    simp [decodeStmtsForKey, hl, hskip, hopt]

/-- C8 witness: with keys `x` (decoded) and `z` (immutable with initial
value, skipped). -/
theorem c8_witness :
    ((["x", "z"] : List String).isEmpty = false →
      deriveBodyDecodable_init [samplePropX, samplePropLetZ] ["x", "z"] none
        = [Stmt.bind "container"
             (Expr.tryE (containerKeyedByCall (Expr.declRef "decoder"))),
           Stmt.declStmt "container"]
          ++ (["x", "z"] : List String).flatMap
              (decodeStmtsForKey [samplePropX, samplePropLetZ])
          ++ superDecodeStmts none)
    ∧ (lookupVarDeclForCodingKeysCase [samplePropX, samplePropLetZ] "z"
        = some (samplePropLetZ, false))
    ∧ ((samplePropLetZ.isLet && samplePropLetZ.isParentInited) = true →
        decodeStmtsForKey [samplePropX, samplePropLetZ] "z" = []) :=
  ⟨(c8_decode_body_shape [samplePropX, samplePropLetZ] ["x", "z"] none).2.1,
   rfl,
   fun h =>
     (c8_decode_body_shape [samplePropX, samplePropLetZ] ["x", "z"] none).2.2.1
       "z" samplePropLetZ false rfl h⟩

/-- C1 counterexample: the fixed debug message of the exactly-one-key
guard of the synthesized tagged-union decode initializer is
`Invalid number of keys found, expected one.` (capitalized, with a
trailing period), not `invalid number of keys found, expected one` as
the claim states. -/
theorem c1_counterexample :
    guardThrowMessage
      (deriveBodyDecodable_enum_init "Foo" [{ name := "bar", params := [] }]
        ["bar"] [("BarCodingKeys", [])])
      = some "Invalid number of keys found, expected one."
    ∧ some "Invalid number of keys found, expected one."
        ≠ some "invalid number of keys found, expected one" :=
  ⟨rfl, by decide⟩

/-- C1 (amended): for a tagged union whose key enumeration has at least
one case, the synthesized decode initializer body binds the top-level
keyed container first, then guards on `container.allKeys.count == 1`,
throwing `DecodingError.typeMismatch` with the fixed message
`Invalid number of keys found, expected one.` and the container's
coding path when the count is not exactly one, and then dispatches on
`container.allKeys.first` with one arm per union case that has a
matching key. -/
theorem c1_enum_decode_guard_and_dispatch (enumName : String)
    (cases : List UnionCaseM) (topKeys : List String)
    (caseKeysEnv : List (String × List String))
    (h : topKeys.isEmpty = false) :
    deriveBodyDecodable_enum_init enumName cases topKeys caseKeysEnv
      = [Stmt.bind "container"
           (Expr.tryE (containerKeyedByCall (Expr.declRef "decoder"))),
         Stmt.declStmt "container",
         Stmt.guardStmt
           (Expr.eqCmp
             (Expr.dot (Expr.dot (Expr.declRef "container") "allKeys") "count")
             (Expr.intLit 1))
           [Stmt.throwStmt
             (decodingErrorTypeMismatchExpr enumName (Expr.declRef "container")
               (Expr.stringLit "Invalid number of keys found, expected one."))],
         Stmt.switchStmt
           (Expr.dot (Expr.dot (Expr.declRef "container") "allKeys") "first")
           ((cases.filter (fun e => topKeys.contains e.name)).map
             (fun e =>
               (Pat.someOf (Pat.enumElem "CodingKeys" e.name false),
                 decodeCaseBody enumName caseKeysEnv e)))]
    ∧ decodingErrorTypeMismatchExpr enumName (Expr.declRef "container")
        (Expr.stringLit "Invalid number of keys found, expected one.")
      = Expr.call (Expr.dot (Expr.typeRef "DecodingError") "typeMismatch")
          [("", Expr.dotSelf (Expr.typeRef enumName)),
           ("", Expr.call
             (Expr.dot (Expr.typeRef "DecodingError.Context") "init")
             [("codingPath",
               Expr.dot (Expr.declRef "container") "codingPath"),
              ("debugDescription",
               Expr.stringLit "Invalid number of keys found, expected one."),
              ("underlyingError", Expr.nilLit)])] := by
  constructor
  · simp only [deriveBodyDecodable_enum_init, h, Bool.false_eq_true, if_false,
      decodeArms_eq]
  · rfl

/-- C1 witness: the body shape for a keyed enum with no cases matching
no key. -/
theorem c1_witness :
    (["k"] : List String).isEmpty = false
    ∧ (deriveBodyDecodable_enum_init "E" [] ["k"] []
        = [Stmt.bind "container"
             (Expr.tryE (containerKeyedByCall (Expr.declRef "decoder"))),
           Stmt.declStmt "container",
           Stmt.guardStmt
             (Expr.eqCmp
               (Expr.dot (Expr.dot (Expr.declRef "container") "allKeys") "count")
               (Expr.intLit 1))
             [Stmt.throwStmt
               (decodingErrorTypeMismatchExpr "E" (Expr.declRef "container")
                 (Expr.stringLit
                   "Invalid number of keys found, expected one."))],
           Stmt.switchStmt
             (Expr.dot (Expr.dot (Expr.declRef "container") "allKeys") "first")
             ((([] : List UnionCaseM).filter
                 (fun e => (["k"] : List String).contains e.name)).map
               (fun e =>
                 (Pat.someOf (Pat.enumElem "CodingKeys" e.name false),
                   decodeCaseBody "E" [] e)))]
      ∧ decodingErrorTypeMismatchExpr "E" (Expr.declRef "container")
          (Expr.stringLit "Invalid number of keys found, expected one.")
        = Expr.call (Expr.dot (Expr.typeRef "DecodingError") "typeMismatch")
            [("", Expr.dotSelf (Expr.typeRef "E")),
             ("", Expr.call
               (Expr.dot (Expr.typeRef "DecodingError.Context") "init")
               [("codingPath",
                 Expr.dot (Expr.declRef "container") "codingPath"),
                ("debugDescription",
                 Expr.stringLit "Invalid number of keys found, expected one."),
                ("underlyingError", Expr.nilLit)])]) :=
  ⟨rfl, c1_enum_decode_guard_and_dispatch "E" [] ["k"] [] rfl⟩

/-- C3 counterexample: an optional payload slot of a tagged-union case
is decoded with the plain `decode` variant, not `decodeIfPresent`, in
the synthesized decode initializer. -/
theorem c3_counterexample :
    sampleOptionalParam.isOptional = true
    ∧ armFirstDecodeMethod
        (decodeCaseBody "Foo" [("BarCodingKeys", ["x"])]
          { name := "bar", params := [sampleOptionalParam] })
      = some "decode"
    ∧ firstSwitchArms
        (deriveBodyDecodable_enum_init "Foo"
          [{ name := "bar", params := [sampleOptionalParam] }] ["bar"]
          [("BarCodingKeys", ["x"])])
      = some [(Pat.someOf (Pat.enumElem "CodingKeys" "bar" false),
          decodeCaseBody "Foo" [("BarCodingKeys", ["x"])]
            { name := "bar", params := [sampleOptionalParam] })]
    ∧ (some "decode" : Option String) ≠ some "decodeIfPresent" :=
  ⟨rfl, rfl, rfl, by decide⟩

/-- C3 (amended): a member matched to a key is encoded/decoded with the
if-present variant exactly when its declared type is optional in the
struct/class encode body, the struct/class decode body, and the
per-payload-slot calls of the tagged-union encode body; in the
tagged-union decode body, payload slots always use the plain `decode`
variant, regardless of optionality. -/
theorem c3_if_present_variants :
    (∀ (props : List VarDeclM) (keys : List String) (superEnc : Bool),
      deriveBodyEncodable_encode props keys superEnc
        = [Stmt.bind "container" (containerKeyedByCall (Expr.declRef "encoder")),
           Stmt.declStmt "container"]
          ++ keys.map (encodeStmtForKey props)
          ++ (if superEnc then [superEncodeStmt] else []))
  ∧ (∀ (props : List VarDeclM) (k : String) (v : VarDeclM) (ifP : Bool),
      lookupVarDeclForCodingKeysCase props k = some (v, ifP) →
      encodeStmtForKey props k
        = Stmt.expr (Expr.tryE
            (Expr.call
              (Expr.dot (Expr.declRef "container")
                (if v.isOptional then "encodeIfPresent" else "encode"))
              [("", Expr.dot (Expr.declRef "self") v.name),
               ("forKey", Expr.dot (Expr.typeRef "CodingKeys") k)])))
  ∧ (∀ (props : List VarDeclM) (k : String) (v : VarDeclM) (ifP : Bool),
      lookupVarDeclForCodingKeysCase props k = some (v, ifP) →
      (v.isLet && v.isParentInited) = false →
      decodeStmtsForKey props k
        = [Stmt.expr (Expr.assign
            (Expr.dot (Expr.declRef "self") v.name)
            (Expr.tryE
              (Expr.call
                (Expr.dot (Expr.declRef "container")
                  (if v.isOptional then "decodeIfPresent" else "decode"))
                [("", Expr.dotSelf (Expr.typeRef v.typeName)),
                 ("forKey", Expr.dot (Expr.typeRef "CodingKeys") k)])))])
  ∧ (∀ (cid : String) (cks : List String) (i : Nat) (p : ParamM),
      cks.contains (paramCodingId i p) = true →
      encodePayloadStmt cid cks i p
        = [Stmt.expr (Expr.tryE
            (Expr.call
              (Expr.dot (Expr.declRef "nestedContainer")
                (if p.isOptional then "encodeIfPresent" else "encode"))
              [("", Expr.declRef ("a" ++ toString i)),
               ("forKey", Expr.dot (Expr.typeRef cid) (paramCodingId i p))]))])
  ∧ (∀ (cid : String) (cks : List String) (i : Nat) (p : ParamM),
      cks.contains (paramCodingId i p) = true →
      decodeArgForParam cid cks i p
        = Expr.tryE
            (Expr.call (Expr.dot (Expr.declRef "nestedContainer") "decode")
              [("", Expr.dotSelf (Expr.typeRef (declaredTypeNameP p))),
               ("forKey", Expr.dot (Expr.typeRef cid) (paramCodingId i p))])) := by
  refine ⟨fun _ _ _ => rfl, ?_, ?_, ?_, ?_⟩
  · intro props k v ifP hl
    have hopt : ifP = v.isOptional := by
      rw [lookupVarDeclForCodingKeysCase] at hl
      cases hf : List.find? (fun w => getVarNameForCoding w == k && !w.isStatic)
          props with
      | none => rw [hf] at hl; exact absurd hl (by simp)
      | some w =>
        rw [hf] at hl
        simp only [Option.some_inj, Prod.mk.injEq] at hl
        rw [← hl.1, hl.2]
    simp [encodeStmtForKey, hl, hopt]
  · intro props k v ifP hl hskip
    have hopt : ifP = v.isOptional := by
      rw [lookupVarDeclForCodingKeysCase] at hl
      cases hf : List.find? (fun w => getVarNameForCoding w == k && !w.isStatic)
          props with
      | none => rw [hf] at hl; exact absurd hl (by simp)
      | some w =>
        rw [hf] at hl
        simp only [Option.some_inj, Prod.mk.injEq] at hl
        rw [← hl.1, hl.2]
    simp [decodeStmtsForKey, hl, hskip, hopt]
  · intro cid cks i p hk
    have hmem : paramCodingId i p ∈ cks := by simpa using hk
    simp [encodePayloadStmt, hmem]
  · intro cid cks i p hk
    have hmem : paramCodingId i p ∈ cks := by simpa using hk
    simp [decodeArgForParam, hmem]

/-- C3 witness: `x: Int` uses `encode`/`decode`, `y: String?` uses
`encodeIfPresent`, and an optional payload slot encodes with
`encodeIfPresent` but decodes with plain `decode`. -/
theorem c3_witness :
    (lookupVarDeclForCodingKeysCase [samplePropX, samplePropOptY] "y"
      = some (samplePropOptY, true))
    ∧ encodeStmtForKey [samplePropX, samplePropOptY] "y"
        = Stmt.expr (Expr.tryE
            (Expr.call
              (Expr.dot (Expr.declRef "container")
                (if samplePropOptY.isOptional then "encodeIfPresent" else "encode"))
              [("", Expr.dot (Expr.declRef "self") samplePropOptY.name),
               ("forKey", Expr.dot (Expr.typeRef "CodingKeys") "y")]))
    ∧ ((["x"] : List String).contains (paramCodingId 0 sampleOptionalParam) = true
      ∧ decodeArgForParam "BarCodingKeys" ["x"] 0 sampleOptionalParam
        = Expr.tryE
            (Expr.call (Expr.dot (Expr.declRef "nestedContainer") "decode")
              [("", Expr.dotSelf
                  (Expr.typeRef (declaredTypeNameP sampleOptionalParam))),
               ("forKey", Expr.dot (Expr.typeRef "BarCodingKeys")
                  (paramCodingId 0 sampleOptionalParam))])) :=
  ⟨rfl,
   c3_if_present_variants.2.1 [samplePropX, samplePropOptY] "y" samplePropOptY
     true rfl,
   rfl,
   c3_if_present_variants.2.2.2.2 "BarCodingKeys" ["x"] 0 sampleOptionalParam
     rfl⟩

/-- C4: for a reference type with a base type undergoing `Decodable`
synthesis, the gate requires `init(from:)` on a `Decodable` base and
`init()` otherwise; each of {no candidate, ambiguous candidates, not
designated, inaccessible, failable} makes `canSynthesize` return failure
with the corresponding diagnostic (none for the ambiguous case), and the
result is independent of the properties and key enumeration — the
key-enumeration validation is never reached. -/
theorem c4_superclass_gate (s : SuperclassM) (props props' : List VarDeclM)
    (uk uk' : Option CodingKeysDeclM)
    (h : (superclassGate s).1 = false) :
    (canSynthesize .decodable (.classTarget props uk (some s))).1 = false
  ∧ canSynthesize .decodable (.classTarget props uk (some s))
      = canSynthesize .decodable (.classTarget props' uk' (some s))
  ∧ (canSynthesize .decodable (.classTarget props uk (some s))).2
      = (superclassGate s).2
  ∧ superCands s
      = (if s.conformsDecodable then s.initFromCandidates
         else s.initNoArgCandidates)
  ∧ (∀ c : SuperclassM, superCands c = [] →
      superclassGate c = (false, [Diag.noSuperInitHere]))
  ∧ (∀ (c : SuperclassM) (i1 i2 : InitM) (r : List InitM),
      superCands c = i1 :: i2 :: r → superclassGate c = (false, []))
  ∧ (∀ (c : SuperclassM) (i : InitM), superCands c = [i] →
      i.isDesignated = false →
      superclassGate c = (false, [Diag.superInitNotDesignatedHere]))
  ∧ (∀ (c : SuperclassM) (i : InitM), superCands c = [i] →
      i.isDesignated = true → i.isAccessible = false →
      superclassGate c = (false, [Diag.superInitInaccessibleHere]))
  ∧ (∀ (c : SuperclassM) (i : InitM), superCands c = [i] →
      i.isDesignated = true → i.isAccessible = true → i.isFailable = true →
      superclassGate c = (false, [Diag.superInitFailableHere]))
  ∧ (∀ (c : SuperclassM) (i : InitM), superCands c = [i] →
      i.isDesignated = true → i.isAccessible = true → i.isFailable = false →
      (superclassGate c).1 = true) := by
  refine ⟨?_, ?_, ?_, rfl, ?_, ?_, ?_, ?_, ?_, ?_⟩
  · simp [canSynthesize, h]
  · simp [canSynthesize, h]
  · simp [canSynthesize, h]
  · intro c hc
    simp [superclassGate, hc]
  · intro c i1 i2 r hc
    simp [superclassGate, hc]
  · intro c i hc hd
    simp [superclassGate, hc, hd]
  · intro c i hc hd ha
    simp [superclassGate, hc, hd, ha]
  · intro c i hc hd ha hf
    simp [superclassGate, hc, hd, ha, hf]
  · intro c i hc hd ha hf
    simp [superclassGate, hc, hd, ha, hf]

/-- C4 witness: a `Decodable` base with no `init(from:)` candidate
aborts synthesis with the no-super-initializer diagnostic, whatever the
member list and key declaration are. -/
theorem c4_witness :
    (superclassGate sampleSuperNoInit).1 = false
    ∧ (canSynthesize .decodable (.classTarget [] none (some sampleSuperNoInit))).1
        = false
    ∧ canSynthesize .decodable (.classTarget [] none (some sampleSuperNoInit))
        = canSynthesize .decodable
            (.classTarget [samplePropX] (some emptyCodingKeysDecl)
              (some sampleSuperNoInit))
    ∧ (canSynthesize .decodable (.classTarget [] none (some sampleSuperNoInit))).2
        = (superclassGate sampleSuperNoInit).2 :=
  ⟨rfl,
   (c4_superclass_gate sampleSuperNoInit [] [samplePropX] none
     (some emptyCodingKeysDecl) rfl).1,
   (c4_superclass_gate sampleSuperNoInit [] [samplePropX] none
     (some emptyCodingKeysDecl) rfl).2.1,
   (c4_superclass_gate sampleSuperNoInit [] [samplePropX] none
     (some emptyCodingKeysDecl) rfl).2.2.1⟩

/-- C7: validating a user-declared key enumeration against a struct's
members diagnoses every extraneous key (one diagnostic per key with no
matching member, all of them — the loop does not stop at the first),
fails validation when any extraneous key exists, and then
`deriveEncodable` produces no body. -/
theorem c7_extraneous_keys (props : List VarDeclM) (d : CodingKeysDeclM)
    (hconf : d.conformsToCodingKey = true) (henum : d.isEnumDecl = true)
    (hnd : d.keys.Nodup) :
    (validateCodingKeysEnumTop .encodable props none (some d)).2.filter
        isExtraneousDiag
      = (d.keys.filter (fun k => (alLookup (propsMap props) k).isNone)).map
          Diag.extraneousCodingKeyCase
  ∧ (d.keys.any (fun k => (alLookup (propsMap props) k).isNone) = true →
      (validateCodingKeysEnumTop .encodable props none (some d)).1 = false
      ∧ (deriveEncodable (.structTarget props (some d))).1 = none) := by
  have htop : validateCodingKeysEnumTop .encodable props none (some d)
      = validateCodingKeysEnumMap .encodable (propsMap props) d.keys := by
    simp [validateCodingKeysEnumTop, validateCodingKeysType, hconf, henum]
  constructor
  · rw [htop, validateCodingKeysEnumMap_enc_snd,
      validateKeysLoop_extraneous _ _ _ hnd]
  · intro hany
    obtain ⟨k, hk, hkn⟩ := List.any_eq_true.mp hany
    have hfil : k ∈ d.keys.filter (fun k => (alLookup (propsMap props) k).isNone) :=
      List.mem_filter.mpr ⟨hk, hkn⟩
    have hmapne :
        (d.keys.filter (fun k => (alLookup (propsMap props) k).isNone)).map
          Diag.extraneousCodingKeyCase ≠ [] :=
      List.ne_nil_of_mem (List.mem_map_of_mem _ hfil)
    have hx := validateKeysLoop_extraneous (propConforms .encodable) d.keys
      (propsMap props) hnd
    have hdiagne :
        (validateKeysLoop (propConforms .encodable) (propsMap props)
          d.keys).2.1 ≠ [] := by
      intro hnil
      rw [hnil] at hx
      exact hmapne hx.symm
    have hfst := validateKeysLoop_false_of_diags (propConforms .encodable)
      d.keys (propsMap props) hdiagne
    have hmap : (validateCodingKeysEnumMap .encodable (propsMap props)
        d.keys).1 = false := by
      unfold validateCodingKeysEnumMap
      simp [hfst]
    have htopf : (validateCodingKeysEnumTop .encodable props none (some d)).1
        = false := by
      rw [htop]; exact hmap
    refine ⟨htopf, ?_⟩
    have hcs : (canSynthesize .encodable (.structTarget props (some d))).1
        = false := htopf
    simp [deriveEncodable, hcs]

/-- C7 witness: user keys `x` and `w` against a type with only `x`:
one extraneous diagnostic for `w`, validation fails, no body. -/
theorem c7_witness :
    ({ keys := ["x", "w"], conformsToCodingKey := true,
       isEnumDecl := true } : CodingKeysDeclM).conformsToCodingKey = true
    ∧ (["x", "w"] : List String).Nodup
    ∧ (validateCodingKeysEnumTop .encodable [samplePropX] none
        (some { keys := ["x", "w"], conformsToCodingKey := true,
                isEnumDecl := true })).2.filter isExtraneousDiag
      = ((["x", "w"] : List String).filter
          (fun k => (alLookup (propsMap [samplePropX]) k).isNone)).map
          Diag.extraneousCodingKeyCase
    ∧ ((["x", "w"] : List String).any
        (fun k => (alLookup (propsMap [samplePropX]) k).isNone) = true →
      (validateCodingKeysEnumTop .encodable [samplePropX] none
          (some { keys := ["x", "w"], conformsToCodingKey := true,
                  isEnumDecl := true })).1 = false
      ∧ (deriveEncodable (.structTarget [samplePropX]
          (some { keys := ["x", "w"], conformsToCodingKey := true,
                  isEnumDecl := true }))).1 = none) :=
  ⟨rfl, by decide,
   (c7_extraneous_keys [samplePropX]
     { keys := ["x", "w"], conformsToCodingKey := true, isEnumDecl := true }
     rfl rfl (by decide)).1,
   (c7_extraneous_keys [samplePropX]
     { keys := ["x", "w"], conformsToCodingKey := true, isEnumDecl := true }
     rfl rfl (by decide)).2⟩

/-- C2 counterexample: a non-defaultable member (`x`) unmatched by a
user-declared key enumeration of a type that also conforms to
`Encodable` still produces the "would never be decoded" error and fails
validation — no warning-only exception exists in
`validateCodingKeysEnum`. -/
theorem c2_counterexample :
    samplePropX.conformsEncodable = true
    ∧ validateCodingKeysEnumTop .decodable [samplePropX] none
        (some emptyCodingKeysDecl)
      = (false, [Diag.nonDecodedProperty "x"]) :=
  ⟨rfl, rfl⟩

/-- C2 (amended): in `Decodable` validation, once the key loop has
succeeded, validation succeeds exactly when every member left unmatched
is defaultable, and each non-defaultable unmatched member produces one
"would never be decoded" diagnostic — with no exception for
user-declared key enumerations or `Encodable` conformance. -/
theorem c2_unmatched_member_validation (m : List (String × CodingProp))
    (keys : List String)
    (h : (validateKeysLoop (propConforms .decodable) m keys).1 = true) :
    validateCodingKeysEnumMap .decodable m keys
      = ((validateKeysLoop (propConforms .decodable) m keys).2.2.all
           (fun e => defaultableEntry e.2),
         (validateKeysLoop (propConforms .decodable) m keys).2.1
           ++ ((validateKeysLoop (propConforms .decodable) m keys).2.2.filter
                 (fun e => !defaultableEntry e.2)).map
               (fun e => Diag.nonDecodedProperty e.1)) := by
  unfold validateCodingKeysEnumMap
  simp [h, checkRemainingDecodable_spec]

/-- C2 witness: an unmatched defaultable member passes with no
diagnostic. -/
theorem c2_witness :
    (validateKeysLoop (propConforms .decodable)
      [("z", varToCodingProp samplePropLetZ)] []).1 = true
    ∧ validateCodingKeysEnumMap .decodable
        [("z", varToCodingProp samplePropLetZ)] []
      = ((validateKeysLoop (propConforms .decodable)
            [("z", varToCodingProp samplePropLetZ)] []).2.2.all
           (fun e => defaultableEntry e.2),
         (validateKeysLoop (propConforms .decodable)
            [("z", varToCodingProp samplePropLetZ)] []).2.1
           ++ ((validateKeysLoop (propConforms .decodable)
                  [("z", varToCodingProp samplePropLetZ)] []).2.2.filter
                 (fun e => !defaultableEntry e.2)).map
               (fun e => Diag.nonDecodedProperty e.1)) :=
  ⟨rfl,
   c2_unmatched_member_validation [("z", varToCodingProp samplePropLetZ)] []
     rfl⟩

/-- C9 counterexample: a case with a non-user-accessible payload slot
with no default, validated against a user-declared empty per-case key
enumeration: `canSynthesize` succeeds, yet the slot is unmatched, has no
default expression, and the synthesized argument is the asserting
path — the assertion on the default's existence fails. -/
theorem c9_counterexample :
    (canSynthesize .decodable (.enumTarget "Foo"
        [{ name := "bar", params := [sampleHiddenParam] }]
        (some { keys := ["bar"], conformsToCodingKey := true,
                isEnumDecl := true })
        [("BarCodingKeys", emptyCodingKeysDecl)])).1 = true
    ∧ (validateCaseCodingKeysEnum .decodable ["bar"]
        { name := "bar", params := [sampleHiddenParam] }
        (some emptyCodingKeysDecl)).1 = true
    ∧ sampleHiddenParam.defaultExpr = none
    ∧ decodeArgAsserts [] 0 sampleHiddenParam = true
    ∧ decodeArgForParam "BarCodingKeys" [] 0 sampleHiddenParam
        = Expr.assertFail :=
  ⟨rfl, rfl, rfl, rfl, rfl⟩

/-- C9 (amended): under a successful per-case validation and pairwise
distinct payload identifiers, every *user-accessible* payload slot left
unmatched by the evaluated per-case key enumeration has a default
expression; for such slots the assertion never fires and the
constructed argument is exactly the declared default expression. -/
theorem c9_unmatched_default (topKeys : List String) (elt : UnionCaseM)
    (userCase : Option CodingKeysDeclM) (ks : List String) (i : Nat)
    (p : ParamM)
    (hval : (validateCaseCodingKeysEnum .decodable topKeys elt userCase).1
      = true)
    (hnd : (implicitCaseKeysAux 0 elt.params).Nodup)
    (hks : evaluatedCaseKeys topKeys elt userCase = some ks)
    (hp : elt.params[i]? = some p)
    (hacc : p.isUserAccessible = true)
    (hunmatched : ks.contains (paramCodingId i p) = false) :
    p.defaultExpr.isSome = true
  ∧ decodeArgAsserts ks i p = false
  ∧ (∀ e, p.defaultExpr = some e →
      decodeArgForParam (caseCodingKeysIdentifier elt.name) ks i p = e) := by
  have hnotin : paramCodingId i p ∉ ks := by simpa using hunmatched
  cases userCase with
  | none =>
    exfalso
    simp only [evaluatedCaseKeys] at hks
    unfold addImplicitCaseCodingKeys at hks
    by_cases hc : topKeys.contains elt.name = true
    · simp only [hc, if_true, Option.some_inj] at hks
      subst hks
      have hmem := implicitCaseKeysAux_mem elt.params 0 i p hp
      rw [Nat.zero_add] at hmem
      exact hnotin hmem
    · have hcm : elt.name ∉ topKeys := by simpa using hc
      simp [hcm] at hks
  | some d =>
    simp only [evaluatedCaseKeys, Option.some_inj] at hks
    subst hks
    by_cases h1 : d.conformsToCodingKey
    · by_cases h2 : d.isEnumDecl
      · simp only [validateCaseCodingKeysEnum, validateCodingKeysType, h1, h2,
          Bool.not_true, Bool.false_eq_true, if_false] at hval
        obtain ⟨hloop, hrem⟩ :=
          validateCodingKeysEnumMap_dec_true (paramsMap elt.params) d.keys hval
        have hlook : alLookup (paramsMap elt.params) (paramCodingId i p)
            = some (paramToCodingProp p) := by
          have := paramsMapAux_lookup elt.params [] 0 i p hp hacc hnd
          simpa [paramsMap] using this
        have hrest : alLookup
            (validateKeysLoop (propConforms .decodable) (paramsMap elt.params)
              d.keys).2.2 (paramCodingId i p)
            = some (paramToCodingProp p) := by
          rw [validateKeysLoop_rest_lookup _ _ _ _ hnotin]
          exact hlook
        have hdef := hrem _ _ hrest
        simp only [defaultableEntry, paramToCodingProp, Bool.false_or,
          Bool.true_and] at hdef
        refine ⟨hdef, ?_, ?_⟩
        · cases hde : p.defaultExpr with
          | none => rw [hde] at hdef; simp at hdef
          | some e => simp [decodeArgAsserts, hunmatched, hde]
        · intro e he
          simp [decodeArgForParam, hnotin, he]
      · simp [validateCaseCodingKeysEnum, validateCodingKeysType, h1, h2]
          at hval
    · simp [validateCaseCodingKeysEnum, validateCodingKeysType, h1] at hval

/-- C9 witness: a defaulted, user-accessible slot unmatched by a
user-declared empty per-case key enumeration: validation succeeds, the
default exists, the assertion does not fire, and the argument is the
default expression. -/
theorem c9_witness :
    (validateCaseCodingKeysEnum .decodable ["bar"]
        { name := "bar", params := [sampleDefaultedParam] }
        (some emptyCodingKeysDecl)).1 = true
    ∧ (implicitCaseKeysAux 0 [sampleDefaultedParam]).Nodup
    ∧ evaluatedCaseKeys ["bar"]
        { name := "bar", params := [sampleDefaultedParam] }
        (some emptyCodingKeysDecl) = some []
    ∧ (sampleDefaultedParam.defaultExpr.isSome = true
      ∧ decodeArgAsserts [] 0 sampleDefaultedParam = false
      ∧ (∀ e, sampleDefaultedParam.defaultExpr = some e →
          decodeArgForParam (caseCodingKeysIdentifier "bar") [] 0
            sampleDefaultedParam = e)) :=
  ⟨rfl, by decide, rfl,
   c9_unmatched_default ["bar"]
     { name := "bar", params := [sampleDefaultedParam] }
     (some emptyCodingKeysDecl) [] 0 sampleDefaultedParam rfl (by decide) rfl
     rfl rfl rfl⟩

end DerivedCodable
